import Mathlib

/-!
Verification of the generic object kernel in src/Tasks/Task12.py.

The Python file defines a reflective object kernel: an abstract root class
General with copy_to, deep_copy_to, clone, equals, deep_equals, serialize,
deserialize, assignment_attempt / safe_cast / try_as and a family of safe
wrappers, a direct descendant Any (adding metadata helpers and the safe
wrappers safe_copy_to and try_clone), two leaf classes Person and Car, a
bottom class Void closing the hierarchy, and a module-level singleton
VoidInstance = Void().

Shallow embedding used here:
  * A runtime object of the hierarchy is an Entity: a concrete class tag
    (Cls), its attribute dictionary (an insertion-ordered association list
    from attribute name to value), and an object identity (ref : Nat)
    standing for the address returned by object.__new__.
  * Attribute values are modelled as JSON-like data (JVal).  The kernel
    only ever inspects values through json.dumps / json.loads / dict
    equality, and every value the repository stores in an entity
    (strings, ints, None, the metadata dict) is of this shape; the
    str(value) fallback of serialize for non-JSON values and the pickle
    fallback of serialize are therefore unreachable in the model and the
    serialize embedding is total.
  * A serialized text (SText) is represented by what it decodes to:
    SText.json v pk is a well-formed JSON text whose parsed value is v and
    whose base64/pickle fallback decoding yields pk (base64.b64decode with
    validate=False discards the quotes and punctuation of a JSON text, so
    even a well-formed JSON text can decode as a pickle; pk = none when
    that decoding fails), SText.pickle e is a non-JSON text that decodes
    as a base64 pickle of entity e, SText.raw s is a text that is neither
    valid JSON nor a valid pickle.  json.dumps with
    sort_keys=True is modelled by recursively sorting every object by key
    (canon); on the outputs of serialize this value-level equality
    coincides with string equality of the printed texts, because the dump
    of a canonically sorted value is injective.
  * Exceptions are modelled with Except Err; the Err constructors carry
    the identity of the three TypeError / ValueError sites of the source.
  * Python compares strings by code points; String comparison is embedded
    on the underlying character lists so that all comparisons compute.
-/

/-- JSON-like runtime values: the shape of every attribute value the
repository stores in an entity (None, bools, numbers, strings, lists and
string-keyed dicts in insertion order). -/
inductive JVal where
  | null : JVal
  | bool (b : Bool) : JVal
  | num (n : Int) : JVal
  | str (s : String) : JVal
  | arr (items : List JVal) : JVal
  | obj (entries : List (String × JVal)) : JVal
deriving Repr

/-- Code-point comparison of strings as character lists, the order Python
uses for sorted() and for json.dumps(..., sort_keys=True). -/
def strLeChars : List Char → List Char → Bool
  | [], _ => true
  | _ :: _, [] => false
  | a :: as, b :: bs => if a < b then true else if b < a then false else strLeChars as bs

/-- Key order on dictionary entries: compare the keys by code points. -/
def keyLe (a b : String × JVal) : Prop := strLeChars a.1.data b.1.data = true

instance : DecidableRel keyLe := fun _ _ => inferInstanceAs (Decidable (_ = true))

/-- Sorting the entries of a dictionary by key, as json.dumps with
sort_keys=True prints them. -/
def sortEntries (l : List (String × JVal)) : List (String × JVal) :=
  List.insertionSort keyLe l

mutual

/-- Canonical form of a JSON value: every object is printed with its keys
sorted, recursively.  canon v is the parse of json.dumps(v, sort_keys=True);
two values have equal canonical dumps exactly when their canon forms are
equal. -/
def canon : JVal → JVal
  | .null => .null
  | .bool b => .bool b
  | .num n => .num n
  | .str s => .str s
  | .arr l => .arr (canonList l)
  | .obj l => .obj (sortEntries (canonEntries l))

/-- Pointwise canonical form of a list of values. -/
def canonList : List JVal → List JVal
  | [] => []
  | v :: vs => canon v :: canonList vs

/-- Pointwise canonical form of the values of a list of entries. -/
def canonEntries : List (String × JVal) → List (String × JVal)
  | [] => []
  | (k, v) :: kvs => (k, canon v) :: canonEntries kvs

end

mutual

/-- Structural equality of JSON values, the embedding of the Python ==
comparison the kernel applies to attribute values. -/
def jvalBeq : JVal → JVal → Bool
  | .null, .null => true
  | .bool a, .bool b => a = b
  | .num a, .num b => a = b
  | .str a, .str b => a = b
  | .arr a, .arr b => jlistBeq a b
  | .obj a, .obj b => jentriesBeq a b
  | _, _ => false

/-- Pointwise structural equality of value lists. -/
def jlistBeq : List JVal → List JVal → Bool
  | [], [] => true
  | a :: as, b :: bs => jvalBeq a b && jlistBeq as bs
  | _, _ => false

/-- Pointwise structural equality of entry lists. -/
def jentriesBeq : List (String × JVal) → List (String × JVal) → Bool
  | [], [] => true
  | (k, v) :: as, (k', v') :: bs => k = k' && jvalBeq v v' && jentriesBeq as bs
  | _, _ => false

end

/-- First-match lookup in an attribute dictionary (Python dicts have
unique keys, so first match and the dict entry coincide). -/
def lookupF : List (String × JVal) → String → Option JVal
  | [], _ => none
  | (k', v) :: t, k => if k' = k then some v else lookupF t k

/-- The Python setattr on the attribute dictionary: replace the entry in
place if the key is present, append it otherwise (insertion order). -/
def setField : List (String × JVal) → String → JVal → List (String × JVal)
  | [], k, v => [(k, v)]
  | (k', v') :: t, k, v => if k' = k then (k, v) :: t else (k', v') :: setField t k v

/-- Run a sequence of setattr assignments against a starting dictionary. -/
def applyEntries (tgt : List (String × JVal)) (src : List (String × JVal)) :
    List (String × JVal) :=
  src.foldl (fun acc kv => setField acc kv.1 kv.2) tgt

/-- Attribute dictionary of a fresh object after the setattr loop of
deserialize, which starts from the empty dictionary of cls.__new__(cls). -/
def setFields (l : List (String × JVal)) : List (String × JVal) :=
  applyEntries [] l

/-- Equality of Option JVal results under structural value equality. -/
def optBeq : Option JVal → Option JVal → Bool
  | none, none => true
  | some a, some b => jvalBeq a b
  | _, _ => false

/-- The Python dict == on two attribute dictionaries: the same keys, and
for every key structurally equal values. -/
def dictBeq (l₁ l₂ : List (String × JVal)) : Bool :=
  l₁.all (fun kv => optBeq (lookupF l₂ kv.1) (lookupF l₁ kv.1)) &&
  l₂.all (fun kv => optBeq (lookupF l₁ kv.1) (lookupF l₂ kv.1))

/-- The test attr_name.startswith("_") of the reflective copy loops. -/
def startsUnderscore (s : String) : Bool :=
  match s.data with
  | [] => false
  | c :: _ => c = '_'

/-- The attributes the reflective copy loops transfer: the instance
attributes whose name does not start with an underscore.  (The callable
test of the source always passes for data values, and the classes of the
file declare no non-callable class-level attributes.) -/
def visibleFields (l : List (String × JVal)) : List (String × JVal) :=
  l.filter (fun kv => !(startsUnderscore kv.1))

/-- The concrete classes of the hierarchy of Task12.py:
General is the abstract root, Any its direct descendant, Person, Car and
Void the leaves (Void closes the hierarchy from below). -/
inductive Cls where
  | general : Cls
  | any : Cls
  | person : Cls
  | car : Cls
  | void : Cls
deriving DecidableEq, Repr

/-- The isinstance relation of the hierarchy: subclassOf c d is true when
an object of concrete class c is an instance of class d. -/
def subclassOf : Cls → Cls → Bool
  | .general, .general => true
  | .general, _ => false
  | .any, .general => true
  | .any, .any => true
  | .any, _ => false
  | .person, .general => true
  | .person, .any => true
  | .person, .person => true
  | .person, _ => false
  | .car, .general => true
  | .car, .any => true
  | .car, .car => true
  | .car, _ => false
  | .void, .general => true
  | .void, .any => true
  | .void, .void => true
  | .void, _ => false

/-- The __name__ of each class, as serialize embeds it in the text. -/
def clsName : Cls → String
  | .general => "General"
  | .any => "Any"
  | .person => "Person"
  | .car => "Car"
  | .void => "Void"

/-- A runtime object of the hierarchy: its concrete class, its attribute
dictionary in insertion order, and its identity (the address object.__new__
returned for it). -/
structure Entity where
  cls : Cls
  fields : List (String × JVal)
  ref : Nat
deriving Repr

/-- The module-level singleton VoidInstance = Void().  Its constructor
assigns no attributes, so its dictionary is empty; its identity is fixed
once for the process lifetime. -/
def VoidEntity : Entity :=
  { cls := Cls.void, fields := [], ref := 0 }

/-- The exception sites of the kernel. -/
inductive Err where
  /-- TypeError of General.copy_to and General.deep_copy_to:
  "Cannot copy to object of different type: ..." (carries the class of the
  rejected target). -/
  | typeMismatch (targetCls : Cls) : Err
  /-- TypeError of Void.copy_to: "Cannot copy Void object". -/
  | unsupportedVoidCopy : Err
  /-- TypeError of Void.deep_copy_to: "Cannot deep copy Void object". -/
  | unsupportedVoidDeepCopy : Err
  /-- ValueError of General.deserialize: "Cannot deserialize the provided
  data". -/
  | deserializationError : Err
deriving DecidableEq, Repr

/-- A serialized text, represented by what it decodes to.  json v pk is a
well-formed JSON text whose parse is v; the component pk records what the
pickle branch of deserialize obtains from the very same text, because
base64.b64decode with validate=False discards non-alphabet characters
such as quotes, braces and colons, so even a well-formed JSON text can
still base64-decode and unpickle (for example a JSON string literal
wrapping a base64 pickle); pk = none when the base64 or pickle decoding
of the text fails.  pickle e is a text that is not valid JSON but decodes
as a pickle of e; raw s is a text that is neither.  Decoded payloads are
modelled at the declared result type of the API (entities). -/
inductive SText where
  | json (v : JVal) (pk : Option Entity) : SText
  | pickle (e : Entity) : SText
  | raw (s : String) : SText
deriving Repr

/-- String equality of two serialized texts.  Texts produced by serialize
are canonical dumps, on which equality of the parsed values coincides with
equality of the printed strings.  (The pickle arm is unreachable from
serialize in this model and compares the pickled payloads.) -/
def stextBeq : SText → SText → Bool
  | .json a _, .json b _ => jvalBeq a b
  | .raw a, .raw b => a = b
  | .pickle a, .pickle b => a.cls = b.cls && jentriesBeq a.fields b.fields
  | _, _ => false

/-- copy.deepcopy on an attribute value.  On pure JSON-like data the deep
copy is structurally identical to its argument; value-level storage
identity is not part of this embedding, so the function is the identity. -/
def deepcopy (v : JVal) : JVal := v

/-- General.copy_to, with the Void.copy_to override:
Void refuses every copy; otherwise the target must be an instance of the
class of self (isinstance(target, self.__class__)), and each attribute of
self whose name does not start with an underscore is assigned to the
target with setattr, in the sorted order dir(self) yields.  The returned
entity is the mutated target. -/
def copy_to (self target : Entity) : Except Err Entity :=
  if self.cls = Cls.void then .error Err.unsupportedVoidCopy
  else if subclassOf target.cls self.cls then
    .ok { target with
          fields := applyEntries target.fields (sortEntries (visibleFields self.fields)) }
  else .error (Err.typeMismatch target.cls)

/-- General.deep_copy_to, with the Void.deep_copy_to override: as copy_to
but each assigned value passes through copy.deepcopy. -/
def deep_copy_to (self target : Entity) : Except Err Entity :=
  if self.cls = Cls.void then .error Err.unsupportedVoidDeepCopy
  else if subclassOf target.cls self.cls then
    .ok { target with
          fields := applyEntries target.fields
            ((sortEntries (visibleFields self.fields)).map (fun kv => (kv.1, deepcopy kv.2))) }
  else .error (Err.typeMismatch target.cls)

/-- General.clone, with the Void.clone override: Void.clone returns the
VoidInstance singleton itself; otherwise a fresh instance of the class of
self is allocated with self.__class__.__new__ (no constructor runs, the
argument fresh is its new address) and every entry of self.__dict__ is
deep-copied into it. -/
def clone (self : Entity) (fresh : Nat) : Entity :=
  if self.cls = Cls.void then VoidEntity
  else { cls := self.cls,
         fields := self.fields.map (fun kv => (kv.1, deepcopy kv.2)),
         ref := fresh }

/-- General.equals, with the Void.equals override: Void equals exactly the
Void instances; otherwise other must be an instance of the class of self
and the two attribute dictionaries must compare equal with ==. -/
def equals (self other : Entity) : Bool :=
  if self.cls = Cls.void then subclassOf other.cls Cls.void
  else subclassOf other.cls self.cls && dictBeq self.fields other.fields

/-- General.serialize, with the Void.serialize override: Void serializes
to the fixed literal with class "Void" and data null; otherwise the text
is json.dumps of the dictionary with the class name and the attribute
dictionary, with sort_keys=True.  Every attribute value of the model is
JSON-representable, so the per-value json.dumps test of the source always
succeeds and the pickle fallback of serialize is unreachable.  The printed
texts do not double as base64 pickles: the base64-alphabet content of the
fixed Void literal is 17 characters, not a multiple of 4, so its fallback
decoding fails (pk = none); for the dict dumps the fallback component is
never consulted, because the canonical shape test of deserialize succeeds
before the pickle branch is reached. -/
def serialize (self : Entity) : SText :=
  if self.cls = Cls.void then
    SText.json (JVal.obj [("class", JVal.str "Void"), ("data", JVal.null)]) none
  else
    SText.json (JVal.obj [("class", JVal.str (clsName self.cls)),
                          ("data", JVal.obj (sortEntries (canonEntries self.fields)))]) none

/-- General.deep_equals, with the Void.deep_equals override: Void deep-
equals exactly the Void instances; otherwise other must be an instance of
the class of self and the two serialized texts must be equal strings (the
serialize of this model is total, so the fallback to dictionary equality
in the source is unreachable). -/
def deep_equals (self other : Entity) : Bool :=
  if self.cls = Cls.void then subclassOf other.cls Cls.void
  else subclassOf other.cls self.cls && stextBeq (serialize self) (serialize other)

/-- The pickle branch of deserialize: base64-decode the text, discarding
characters outside the base64 alphabet, and unpickle; fail with the
ValueError when that decoding fails. -/
def pickleFallback : Option Entity → Except Err Entity
  | some e => .ok e
  | none => .error Err.deserializationError

/-- General.deserialize: parse the text as JSON; if the parse is a dict
with a "class" key and a "data" key whose value is a dict, allocate a
fresh instance of cls (the argument fresh is its address) and setattr
every entry of data onto it.  In every other case control reaches the
pickle branch: when the dict-shape test is false the try block simply
ends, and when data is present but not a dict the data.items() call
raises and the bare except catches it; the pickle branch then
base64-decodes the very same text, which can succeed even on a
well-formed JSON text (quotes and punctuation are discarded), or fails
with ValueError.  The "class" value embedded in the text is never
consulted. -/
def deserialize (cls : Cls) (text : SText) (fresh : Nat) : Except Err Entity :=
  match text with
  | .json (.obj l) pk =>
      if (lookupF l "class").isSome then
        match lookupF l "data" with
        | some (.obj d) => .ok { cls := cls, fields := setFields d, ref := fresh }
        | _ => pickleFallback pk
      else pickleFallback pk
  | .json _ pk => pickleFallback pk
  | .pickle e => .ok e
  | .raw _ => .error Err.deserializationError

/-- The shape test of the JSON branch of deserialize: a dict with a
"class" key and a "data" key holding a dict. -/
def canonShape : JVal → Bool
  | .obj l =>
      (lookupF l "class").isSome &&
        (match lookupF l "data" with
         | some (.obj _) => true
         | _ => false)
  | _ => false

/-- General.assignment_attempt: None yields VoidInstance; a Void source
yields VoidInstance; a source that is an instance of the target class is
returned unchanged; anything else yields VoidInstance.  (Void has no
subclasses, so isinstance(source, Void) is the class test against Void.) -/
def assignment_attempt (targetCls : Cls) (source : Option Entity) : Entity :=
  match source with
  | none => VoidEntity
  | some x =>
      if subclassOf x.cls Cls.void then VoidEntity
      else if subclassOf x.cls targetCls then x
      else VoidEntity

/-- General.safe_cast: an alias of assignment_attempt. -/
def safe_cast (targetCls : Cls) (source : Option Entity) : Entity :=
  assignment_attempt targetCls source

/-- General.try_as: the instance method form of assignment_attempt. -/
def try_as (self : Entity) (targetCls : Cls) : Entity :=
  assignment_attempt targetCls (some self)

/-- General.safe_serialize: serialize inside try/except.  The serialize of
this model is total, so the handler is unreachable. -/
def safe_serialize (self : Entity) : SText :=
  serialize self

/-- General.safe_deserialize: deserialize inside try/except, substituting
VoidInstance for any failure. -/
def safe_deserialize (cls : Cls) (text : SText) (fresh : Nat) : Entity :=
  match deserialize cls text fresh with
  | .ok e => e
  | .error _ => VoidEntity

/-- Any.safe_copy_to: copy_to inside try/except, reporting success as a
boolean.  The pair returned here is the boolean result together with the
state of the target after the call (unchanged when the copy failed). -/
def safe_copy_to (self target : Entity) : Bool × Entity :=
  match copy_to self target with
  | .ok t => (true, t)
  | .error _ => (false, target)

/-- Any.try_clone: clone inside try/except.  The clone of this model is
total, so the handler is unreachable. -/
def try_clone (self : Entity) (fresh : Nat) : Entity :=
  clone self fresh

/-- An Any() instance at address r: Any.__init__ assigns _metadata = an
empty dict and _created_at = None. -/
def mkAny (r : Nat) : Entity :=
  { cls := Cls.any,
    fields := [("_metadata", JVal.obj []), ("_created_at", JVal.null)],
    ref := r }

/-- A Person(name, age) instance at address r: Person.__init__ runs
Any.__init__ and then assigns name and age. -/
def mkPerson (name : String) (age : Int) (r : Nat) : Entity :=
  { cls := Cls.person,
    fields := [("_metadata", JVal.obj []), ("_created_at", JVal.null),
               ("name", JVal.str name), ("age", JVal.num age)],
    ref := r }

/-- A Car(brand, model, year) instance at address r. -/
def mkCar (brand mdl : String) (year : Int) (r : Nat) : Entity :=
  { cls := Cls.car,
    fields := [("_metadata", JVal.obj []), ("_created_at", JVal.null),
               ("brand", JVal.str brand), ("model", JVal.str mdl),
               ("year", JVal.num year)],
    ref := r }

/-! ### Order facts about the key comparison -/

theorem strLeChars_total : ∀ as bs, strLeChars as bs = true ∨ strLeChars bs as = true
  | [], _ => Or.inl rfl
  | _ :: _, [] => Or.inr rfl
  | a :: as, b :: bs => by
    rcases lt_trichotomy a b with h | h | h
    · left; simp [strLeChars, h]
    · subst h
      have := strLeChars_total as bs
      simpa [strLeChars, lt_irrefl] using this
    · right; simp [strLeChars, h]

theorem strLeChars_trans :
    ∀ as bs cs, strLeChars as bs = true → strLeChars bs cs = true →
      strLeChars as cs = true
  | [], _, _ => fun _ _ => rfl
  | _ :: _, [], _ => fun h _ => absurd h (by simp [strLeChars])
  | _ :: _, _ :: _, [] => fun _ h => absurd h (by simp [strLeChars])
  | a :: as, b :: bs, c :: cs => by
    intro h₁ h₂
    by_cases hba : b < a
    · simp [strLeChars, hba, lt_asymm hba] at h₁
    · by_cases hcb : c < b
      · simp [strLeChars, hcb, lt_asymm hcb] at h₂
      · have hab : a ≤ b := le_of_not_lt hba
        have hbc : b ≤ c := le_of_not_lt hcb
        by_cases hlt : a < c
        · simp [strLeChars, hlt]
        · have hca : c ≤ a := le_of_not_lt hlt
          have hac : a = c := le_antisymm (le_trans hab hbc) hca
          have hba2 : b ≤ a := by rw [hac]; exact hbc
          have hab2 : a = b := le_antisymm hab hba2
          subst hab2
          have hbc2 : a = c := hac
          subst hbc2
          simp only [strLeChars, lt_irrefl, if_false] at h₁ h₂ ⊢
          exact strLeChars_trans as bs cs h₁ h₂

theorem strLeChars_antisymm :
    ∀ as bs, strLeChars as bs = true → strLeChars bs as = true → as = bs
  | [], [] => fun _ _ => rfl
  | [], _ :: _ => fun _ h => absurd h (by simp [strLeChars])
  | _ :: _, [] => fun h _ => absurd h (by simp [strLeChars])
  | a :: as, b :: bs => by
    intro h₁ h₂
    by_cases hab : a < b
    · simp [strLeChars, hab, lt_asymm hab] at h₂
    · by_cases hba : b < a
      · simp [strLeChars, hba, lt_asymm hba] at h₁
      · have he : a = b := le_antisymm (le_of_not_lt hba) (le_of_not_lt hab)
        subst he
        simp only [strLeChars, lt_irrefl, if_false] at h₁ h₂
        rw [strLeChars_antisymm as bs h₁ h₂]

instance : IsTotal (String × JVal) keyLe :=
  ⟨fun a b => strLeChars_total a.1.data b.1.data⟩

instance : IsTrans (String × JVal) keyLe :=
  ⟨fun _ _ _ h₁ h₂ => strLeChars_trans _ _ _ h₁ h₂⟩


theorem stringDataEq {s t : String} (h : s.data = t.data) : s = t := by
  cases s; cases t; exact congrArg String.mk h

theorem keyLe_antisymm_fst {a b : String × JVal}
    (h₁ : keyLe a b) (h₂ : keyLe b a) : a.1 = b.1 :=
  stringDataEq (strLeChars_antisymm _ _ h₁ h₂)

/-! ### Facts about sortEntries -/

theorem sortEntries_perm (l : List (String × JVal)) : List.Perm (sortEntries l) l :=
  List.perm_insertionSort keyLe l

theorem sortEntries_sorted (l : List (String × JVal)) :
    List.Sorted keyLe (sortEntries l) :=
  List.sorted_insertionSort keyLe l

theorem sortEntries_of_sorted {l : List (String × JVal)}
    (h : List.Sorted keyLe l) : sortEntries l = l :=
  List.Sorted.insertionSort_eq h

theorem sortedKeys_eq_of_perm :
    ∀ {l₁ l₂ : List (String × JVal)}, List.Perm l₁ l₂ →
      List.Sorted keyLe l₁ → List.Sorted keyLe l₂ →
      (l₁.map Prod.fst).Nodup → l₁ = l₂
  | [], _, hp, _, _, _ => hp.nil_eq
  | _ :: _, [], hp, _, _, _ => by exact absurd hp.eq_nil (by simp)
  | a :: t₁, b :: t₂, hp, hs₁, hs₂, hn => by
    by_cases hab : a = b
    · subst hab
      have ht : List.Perm t₁ t₂ := hp.cons_inv
      have := sortedKeys_eq_of_perm ht hs₁.tail hs₂.tail
        (by simpa using (List.nodup_cons.mp (by simpa using hn)).2)
      rw [this]
    · exfalso
      have ha2 : a ∈ t₂ := by
        have : a ∈ b :: t₂ := hp.mem_iff.mp (List.mem_cons_self a t₁)
        rcases List.mem_cons.mp this with h | h
        · exact absurd h hab
        · exact h
      have hb1 : b ∈ t₁ := by
        have : b ∈ a :: t₁ := hp.mem_iff.mpr (List.mem_cons_self b t₂)
        rcases List.mem_cons.mp this with h | h
        · exact absurd h.symm hab
        · exact h
      have hba : keyLe b a := List.rel_of_sorted_cons hs₂ a ha2
      have hab' : keyLe a b := List.rel_of_sorted_cons hs₁ b hb1
      have hkey : a.1 = b.1 := keyLe_antisymm_fst hab' hba
      have hnot : a.1 ∉ t₁.map Prod.fst := (List.nodup_cons.mp (by simpa using hn)).1
      exact hnot (hkey ▸ List.mem_map_of_mem Prod.fst hb1)

theorem sortEntries_keys_perm (l : List (String × JVal)) :
    List.Perm ((sortEntries l).map Prod.fst) (l.map Prod.fst) :=
  (sortEntries_perm l).map Prod.fst

theorem sortEntries_keys_nodup {l : List (String × JVal)}
    (h : (l.map Prod.fst).Nodup) : ((sortEntries l).map Prod.fst).Nodup :=
  ((sortEntries_keys_perm l).nodup_iff).mpr h

/-! ### Facts about the canonical form -/

theorem canonList_eq_map : ∀ l : List JVal, canonList l = l.map canon
  | [] => rfl
  | v :: vs => by rw [canonList, canonList_eq_map vs, List.map_cons]

theorem canonEntries_eq_map :
    ∀ l : List (String × JVal), canonEntries l = l.map (fun kv => (kv.1, canon kv.2))
  | [] => rfl
  | (k, v) :: kvs => by rw [canonEntries, canonEntries_eq_map kvs, List.map_cons]

theorem canonEntries_keys (l : List (String × JVal)) :
    (canonEntries l).map Prod.fst = l.map Prod.fst := by
  rw [canonEntries_eq_map, List.map_map]
  apply List.map_congr_left
  intro kv _
  rfl

theorem canonEntries_of_fixed {l : List (String × JVal)}
    (h : ∀ kv ∈ l, canon kv.2 = kv.2) : canonEntries l = l := by
  rw [canonEntries_eq_map]
  calc l.map (fun kv => (kv.1, canon kv.2)) = l.map id := by
        apply List.map_congr_left
        intro kv hkv
        rw [h kv hkv]
        rfl
    _ = l := List.map_id l

theorem mem_canonEntries {kv : String × JVal} {l : List (String × JVal)}
    (h : kv ∈ canonEntries l) : ∃ kv₀ ∈ l, kv = (kv₀.1, canon kv₀.2) := by
  rw [canonEntries_eq_map] at h
  rcases List.mem_map.mp h with ⟨kv₀, hm, he⟩
  exact ⟨kv₀, hm, he.symm⟩

theorem sizeOf_snd_lt_of_mem {kv : String × JVal} {l : List (String × JVal)}
    (h : kv ∈ l) : sizeOf kv.2 < sizeOf l := by
  rcases kv with ⟨k, v⟩
  have h1 : sizeOf (k, v) < sizeOf l := List.sizeOf_lt_of_mem h
  simp only [Prod.mk.sizeOf_spec] at h1
  show sizeOf v < sizeOf l
  omega

theorem canon_idem_aux : ∀ (n : Nat) (v : JVal), sizeOf v ≤ n → canon (canon v) = canon v := by
  intro n
  induction n with
  | zero =>
    intro v hv
    exact absurd hv (by cases v <;> simp)
  | succ n ih =>
    intro v hv
    match v with
    | .null => rfl
    | .bool _ => rfl
    | .num _ => rfl
    | .str _ => rfl
    | .arr l =>
      show canon (.arr (canonList l)) = .arr (canonList l)
      rw [canon, canonList_eq_map, canonList_eq_map, List.map_map]
      have : l.map (canon ∘ canon) = l.map canon := by
        apply List.map_congr_left
        intro x hx
        have hs : sizeOf x < sizeOf (JVal.arr l) := by
          have := List.sizeOf_lt_of_mem hx
          simp only [JVal.arr.sizeOf_spec]
          omega
        exact ih x (by omega)
      rw [this]
    | .obj l =>
      show canon (.obj (sortEntries (canonEntries l))) = .obj (sortEntries (canonEntries l))
      rw [canon]
      have hfix : canonEntries (sortEntries (canonEntries l)) = sortEntries (canonEntries l) := by
        apply canonEntries_of_fixed
        intro kv hkv
        have hkv2 : kv ∈ canonEntries l := (sortEntries_perm _).mem_iff.mp hkv
        rcases mem_canonEntries hkv2 with ⟨kv₀, hm, he⟩
        have hs : sizeOf kv₀.2 < sizeOf (JVal.obj l) := by
          have := sizeOf_snd_lt_of_mem hm
          simp only [JVal.obj.sizeOf_spec]
          omega
        rw [he]
        exact ih kv₀.2 (by omega)
      rw [hfix, sortEntries_of_sorted (sortEntries_sorted _)]

theorem canon_idem (v : JVal) : canon (canon v) = canon v :=
  canon_idem_aux (sizeOf v) v le_rfl

/-! ### Reflexivity of the structural equality tests -/

theorem jlistBeq_refl_of :
    ∀ l : List JVal, (∀ v ∈ l, jvalBeq v v = true) → jlistBeq l l = true
  | [], _ => rfl
  | v :: vs, h => by
    rw [jlistBeq, h v (List.mem_cons_self v vs),
      jlistBeq_refl_of vs (fun w hw => h w (List.mem_cons_of_mem v hw))]
    rfl

theorem jentriesBeq_refl_of :
    ∀ l : List (String × JVal), (∀ kv ∈ l, jvalBeq kv.2 kv.2 = true) →
      jentriesBeq l l = true
  | [], _ => rfl
  | (k, v) :: kvs, h => by
    rw [jentriesBeq, h (k, v) (List.mem_cons_self _ kvs),
      jentriesBeq_refl_of kvs (fun w hw => h w (List.mem_cons_of_mem _ hw))]
    simp

theorem sizeOf_lt_of_mem_jlist {v : JVal} {l : List JVal}
    (h : v ∈ l) : sizeOf v < sizeOf l :=
  List.sizeOf_lt_of_mem h

theorem jvalBeq_refl_aux : ∀ (n : Nat) (v : JVal), sizeOf v ≤ n → jvalBeq v v = true := by
  intro n
  induction n with
  | zero =>
    intro v hv
    exact absurd hv (by cases v <;> simp)
  | succ n ih =>
    intro v hv
    match v with
    | .null => rfl
    | .bool b => simp [jvalBeq]
    | .num m => simp [jvalBeq]
    | .str s => simp [jvalBeq]
    | .arr l =>
      rw [jvalBeq]
      apply jlistBeq_refl_of
      intro w hw
      have hs : sizeOf w < sizeOf (JVal.arr l) := by
        have := sizeOf_lt_of_mem_jlist hw
        simp only [JVal.arr.sizeOf_spec]
        omega
      exact ih w (by omega)
    | .obj l =>
      rw [jvalBeq]
      apply jentriesBeq_refl_of
      intro kv hkv
      have hs : sizeOf kv.2 < sizeOf (JVal.obj l) := by
        have := sizeOf_snd_lt_of_mem hkv
        simp only [JVal.obj.sizeOf_spec]
        omega
      exact ih kv.2 (by omega)

theorem jvalBeq_refl (v : JVal) : jvalBeq v v = true :=
  jvalBeq_refl_aux (sizeOf v) v le_rfl

theorem optBeq_refl (o : Option JVal) : optBeq o o = true := by
  cases o with
  | none => rfl
  | some v => exact jvalBeq_refl v

theorem dictBeq_refl (l : List (String × JVal)) : dictBeq l l = true := by
  rw [dictBeq]
  have h : l.all (fun kv => optBeq (lookupF l kv.1) (lookupF l kv.1)) = true := by
    rw [List.all_eq_true]
    intro kv _
    exact optBeq_refl _
  rw [h]
  rfl

theorem stextBeq_refl (t : SText) : stextBeq t t = true := by
  cases t with
  | json v pk => exact jvalBeq_refl v
  | pickle e =>
    show (e.cls = e.cls && jentriesBeq e.fields e.fields) = true
    rw [jentriesBeq_refl_of e.fields (fun kv _ => jvalBeq_refl kv.2)]
    simp
  | raw s => simp [stextBeq]

/-! ### Facts about lookup, setattr and the assignment loops -/

theorem lookupF_eq_none :
    ∀ {l : List (String × JVal)} {k : String},
      lookupF l k = none ↔ k ∉ l.map Prod.fst
  | [], k => by simp [lookupF]
  | (k', v) :: t, k => by
    by_cases h : k' = k
    · subst h
      simp [lookupF]
    · rw [lookupF, if_neg h]
      simp only [List.map_cons, List.mem_cons]
      rw [lookupF_eq_none]
      constructor
      · intro hn hc
        rcases hc with hc | hc
        · exact h hc.symm
        · exact hn hc
      · intro hn
        exact fun hc => hn (Or.inr hc)

theorem lookupF_mem :
    ∀ {l : List (String × JVal)} {k : String} {v : JVal},
      lookupF l k = some v → (k, v) ∈ l
  | [], k, v => by simp [lookupF]
  | (k', v') :: t, k, v => by
    by_cases h : k' = k
    · subst h
      rw [lookupF, if_pos rfl]
      intro hs
      injection hs with hs
      subst hs
      exact List.mem_cons_self _ _
    · rw [lookupF, if_neg h]
      intro hs
      exact List.mem_cons_of_mem _ (lookupF_mem hs)

theorem mem_lookupF :
    ∀ {l : List (String × JVal)} {k : String} {v : JVal},
      (l.map Prod.fst).Nodup → (k, v) ∈ l → lookupF l k = some v
  | [], k, v => by simp
  | (k', v') :: t, k, v => by
    intro hn hm
    rcases List.mem_cons.mp hm with he | ht
    · injection he with h1 h2
      subst h1; subst h2
      rw [lookupF, if_pos rfl]
    · have hk : k' ≠ k := by
        intro hc
        subst hc
        have : k' ∈ t.map Prod.fst := List.mem_map_of_mem Prod.fst ht
        exact (List.nodup_cons.mp (by simpa using hn)).1 this
      rw [lookupF, if_neg hk]
      exact mem_lookupF (List.nodup_cons.mp (by simpa using hn)).2 ht

theorem lookupF_perm {l₁ l₂ : List (String × JVal)} (hp : List.Perm l₁ l₂)
    (hn : (l₁.map Prod.fst).Nodup) (k : String) : lookupF l₁ k = lookupF l₂ k := by
  have hn₂ : (l₂.map Prod.fst).Nodup := ((hp.map Prod.fst).nodup_iff).mp hn
  cases ho : lookupF l₁ k with
  | none =>
    symm
    rw [lookupF_eq_none]
    rw [lookupF_eq_none] at ho
    intro hc
    exact ho (((hp.map Prod.fst).mem_iff).mpr hc)
  | some v =>
    symm
    exact mem_lookupF hn₂ (hp.mem_iff.mp (lookupF_mem ho))

theorem lookupF_canonEntries :
    ∀ (l : List (String × JVal)) (k : String),
      lookupF (canonEntries l) k = (lookupF l k).map canon
  | [], _ => rfl
  | (k', v) :: t, k => by
    by_cases h : k' = k
    · subst h
      rw [canonEntries, lookupF, if_pos rfl, lookupF, if_pos rfl]
      rfl
    · rw [canonEntries, lookupF, if_neg h, lookupF, if_neg h]
      exact lookupF_canonEntries t k

theorem lookupF_visible {l : List (String × JVal)} {k : String}
    (h : startsUnderscore k = false) : lookupF (visibleFields l) k = lookupF l k := by
  induction l with
  | nil => rfl
  | cons kv t ih =>
    rcases kv with ⟨k', v⟩
    cases hu : startsUnderscore k' with
    | true =>
      have hne : k' ≠ k := by
        intro hc
        rw [hc, h] at hu
        exact Bool.false_ne_true hu
      show lookupF (List.filter _ ((k', v) :: t)) k = _
      rw [List.filter_cons, if_neg (by simp [hu]), lookupF, if_neg hne]
      exact ih
    | false =>
      show lookupF (List.filter _ ((k', v) :: t)) k = _
      rw [List.filter_cons, if_pos (by simp [hu])]
      show lookupF ((k', v) :: List.filter _ t) k = _
      by_cases he : k' = k
      · rw [lookupF, if_pos he, lookupF, if_pos he]
      · rw [lookupF, if_neg he, lookupF, if_neg he]
        exact ih

theorem visible_keys_not_underscore {l : List (String × JVal)} {k : String}
    (h : k ∈ (visibleFields l).map Prod.fst) : startsUnderscore k = false := by
  rcases List.mem_map.mp h with ⟨kv, hm, he⟩
  have := List.of_mem_filter hm
  subst he
  simpa using this

theorem visible_keys_nodup {l : List (String × JVal)}
    (h : (l.map Prod.fst).Nodup) : ((visibleFields l).map Prod.fst).Nodup :=
  List.Nodup.sublist (List.Sublist.map Prod.fst (List.filter_sublist l)) h

theorem mem_visible {kv : String × JVal} {l : List (String × JVal)}
    (hm : kv ∈ l) (hv : startsUnderscore kv.1 = false) : kv ∈ visibleFields l :=
  List.mem_filter.mpr ⟨hm, by rw [hv]; rfl⟩

theorem lookupF_setField_self (l : List (String × JVal)) (k : String) (v : JVal) :
    lookupF (setField l k v) k = some v := by
  induction l with
  | nil => simp [setField, lookupF]
  | cons kv t ih =>
    rcases kv with ⟨k', v'⟩
    by_cases h : k' = k
    · rw [setField, if_pos h, lookupF, if_pos rfl]
    · rw [setField, if_neg h, lookupF, if_neg h]
      exact ih

theorem lookupF_setField_ne (l : List (String × JVal)) {k k' : String} (v : JVal)
    (h : k' ≠ k) : lookupF (setField l k v) k' = lookupF l k' := by
  induction l with
  | nil =>
    simp only [setField, lookupF]
    rw [if_neg (fun hc => h hc.symm)]
  | cons kv t ih =>
    rcases kv with ⟨k₀, v₀⟩
    by_cases h₀ : k₀ = k
    · subst h₀
      rw [setField, if_pos rfl, lookupF, if_neg (fun hc => h hc.symm), lookupF,
        if_neg (fun hc => h hc.symm)]
    · rw [setField, if_neg h₀, lookupF, lookupF]
      by_cases he : k₀ = k'
      · rw [if_pos he, if_pos he]
      · rw [if_neg he, if_neg he]
        exact ih

theorem applyEntries_cons (tgt : List (String × JVal)) (kv : String × JVal)
    (src : List (String × JVal)) :
    applyEntries tgt (kv :: src) = applyEntries (setField tgt kv.1 kv.2) src := rfl

theorem applyEntries_not_mem {src : List (String × JVal)} {k : String} :
    ∀ tgt : List (String × JVal), k ∉ src.map Prod.fst →
      lookupF (applyEntries tgt src) k = lookupF tgt k := by
  induction src with
  | nil => intro tgt _; rfl
  | cons kv rest ih =>
    intro tgt hk
    rw [applyEntries_cons]
    have hk1 : k ∉ rest.map Prod.fst := fun hc => hk (by simp [hc])
    have hk2 : k ≠ kv.1 := fun hc => hk (by simp [hc])
    rw [ih _ hk1, lookupF_setField_ne _ _ hk2]

theorem applyEntries_mem {src : List (String × JVal)} {k : String} {v : JVal} :
    ∀ tgt : List (String × JVal), (src.map Prod.fst).Nodup → (k, v) ∈ src →
      lookupF (applyEntries tgt src) k = some v := by
  induction src with
  | nil => intro tgt _ hm; exact absurd hm (List.not_mem_nil _)
  | cons kv rest ih =>
    intro tgt hn hm
    rw [applyEntries_cons]
    rcases List.mem_cons.mp hm with he | ht
    · have hk : k = kv.1 := by rw [← he]
      have hv : v = kv.2 := by rw [← he]
      subst hk; subst hv
      have hkr : kv.1 ∉ rest.map Prod.fst := (List.nodup_cons.mp (by simpa using hn)).1
      rw [applyEntries_not_mem _ hkr, lookupF_setField_self]
    · exact ih _ (List.nodup_cons.mp (by simpa using hn)).2 ht

theorem setField_append {acc : List (String × JVal)} {k : String} (v : JVal)
    (h : k ∉ acc.map Prod.fst) : setField acc k v = acc ++ [(k, v)] := by
  induction acc with
  | nil => rfl
  | cons kv t ih =>
    rcases kv with ⟨k', v'⟩
    have hne : k' ≠ k := fun hc => h (by simp [hc])
    rw [setField, if_neg hne, List.cons_append,
      ih (fun hc => h (by simp; right; exact (by simpa using hc)))]

theorem applyEntries_append :
    ∀ (src acc : List (String × JVal)), ((acc ++ src).map Prod.fst).Nodup →
      applyEntries acc src = acc ++ src := by
  intro src
  induction src with
  | nil => intro acc _; simp [applyEntries]
  | cons kv rest ih =>
    intro acc hn
    rcases kv with ⟨k, v⟩
    have hk : k ∉ acc.map Prod.fst := by
      intro hc
      rw [List.map_append] at hn
      rcases (List.nodup_append.mp hn) with ⟨_, _, hdis⟩
      exact hdis hc (by simp)
    rw [applyEntries_cons]
    show applyEntries (setField acc k v) rest = _
    rw [setField_append v hk]
    have : ((acc ++ [(k, v)]) ++ rest).map Prod.fst = (acc ++ (k, v) :: rest).map Prod.fst := by
      simp
    rw [ih (acc ++ [(k, v)]) (by rw [this]; exact hn)]
    simp

theorem setFields_eq_self {l : List (String × JVal)}
    (h : (l.map Prod.fst).Nodup) : setFields l = l := by
  rw [setFields, applyEntries_append l [] (by simpa using h)]
  rfl

/-! ### Facts about the class hierarchy -/

theorem subclassOf_refl (c : Cls) : subclassOf c c = true := by
  cases c <;> rfl

theorem subclassOf_void_iff (c : Cls) : subclassOf c Cls.void = true ↔ c = Cls.void := by
  cases c <;> simp [subclassOf]

/-! ### Bridge lemmas for serialize and deserialize -/

theorem canonEntries_sortCanon (l : List (String × JVal)) :
    canonEntries (sortEntries (canonEntries l)) = sortEntries (canonEntries l) := by
  apply canonEntries_of_fixed
  intro kv hkv
  have hkv2 : kv ∈ canonEntries l := (sortEntries_perm _).mem_iff.mp hkv
  rcases mem_canonEntries hkv2 with ⟨kv₀, _, he⟩
  rw [he]
  exact canon_idem kv₀.2

theorem sortCanon_keys_nodup {l : List (String × JVal)}
    (h : (l.map Prod.fst).Nodup) :
    ((sortEntries (canonEntries l)).map Prod.fst).Nodup := by
  apply sortEntries_keys_nodup
  rw [canonEntries_keys]
  exact h

theorem sortCanon_idem (l : List (String × JVal)) :
    sortEntries (canonEntries (sortEntries (canonEntries l))) = sortEntries (canonEntries l) := by
  rw [canonEntries_sortCanon, sortEntries_of_sorted (sortEntries_sorted _)]

theorem sortCanon_perm_eq {f₁ f₂ : List (String × JVal)} (hp : List.Perm f₁ f₂)
    (hn : (f₁.map Prod.fst).Nodup) :
    sortEntries (canonEntries f₁) = sortEntries (canonEntries f₂) := by
  have hpc : List.Perm (canonEntries f₁) (canonEntries f₂) := by
    rw [canonEntries_eq_map, canonEntries_eq_map]
    exact hp.map _
  have hper : List.Perm (sortEntries (canonEntries f₁)) (sortEntries (canonEntries f₂)) :=
    ((sortEntries_perm _).trans hpc).trans (sortEntries_perm _).symm
  apply sortedKeys_eq_of_perm hper (sortEntries_sorted _) (sortEntries_sorted _)
  exact sortCanon_keys_nodup hn

theorem lookupF_sortCanon {l : List (String × JVal)} (hn : (l.map Prod.fst).Nodup)
    (k : String) :
    lookupF (sortEntries (canonEntries l)) k = (lookupF l k).map canon := by
  rw [lookupF_perm (sortEntries_perm (canonEntries l)) (sortCanon_keys_nodup hn) k]
  exact lookupF_canonEntries l k

theorem deserialize_json_fallback (c : Cls) (v : JVal) (pk : Option Entity) (r : Nat)
    (h : canonShape v = false) :
    deserialize c (SText.json v pk) r = pickleFallback pk := by
  cases v with
  | null => rfl
  | bool b => rfl
  | num n => rfl
  | str s => rfl
  | arr l => rfl
  | obj l =>
    rw [canonShape] at h
    rw [deserialize]
    cases hc : (lookupF l "class").isSome with
    | false =>
      rw [if_neg (by simp)]
    | true =>
      rw [hc] at h
      rw [if_pos rfl]
      cases hd : lookupF l "data" with
      | none => rfl
      | some w =>
        rw [hd] at h
        cases w with
        | obj d => simp at h
        | null => rfl
        | bool b => rfl
        | num n => rfl
        | str s => rfl
        | arr la => rfl

/-! ### The claims -/

/-- C1: safe_cast (equivalently assignment_attempt and the instance method
try_as) returns the source unchanged when the concrete variant of the
source is the target type or a sub-variant of it, and returns the
SentinelVoid singleton otherwise; a None source also yields SentinelVoid.
The operation is total, so it never raises for a type mismatch.  The
hypothesis is the singleton invariant of the repository: the only Void
object in the process is VoidInstance (for such a source the early Void
branch of the source and the claimed behaviour coincide). -/
theorem C1_safe_cast_spec (tcls : Cls) (source : Option Entity)
    (hsing : ∀ x, source = some x → x.cls = Cls.void → x = VoidEntity) :
    safe_cast tcls source =
      (match source with
       | none => VoidEntity
       | some x => if subclassOf x.cls tcls = true then x else VoidEntity) ∧
    safe_cast tcls source = assignment_attempt tcls source ∧
    (∀ x : Entity, try_as x tcls = safe_cast tcls (some x)) := by
  refine ⟨?_, rfl, fun _ => rfl⟩
  cases source with
  | none => rfl
  | some x =>
    show assignment_attempt tcls (some x) =
      if subclassOf x.cls tcls = true then x else VoidEntity
    rw [assignment_attempt]
    by_cases hv : x.cls = Cls.void
    · have hx : x = VoidEntity := hsing x rfl hv
      rw [if_pos ((subclassOf_void_iff x.cls).mpr hv)]
      by_cases hsub : subclassOf x.cls tcls = true
      · rw [if_pos hsub, hx]
      · rw [if_neg hsub]
    · rw [if_neg (fun hc => hv ((subclassOf_void_iff x.cls).mp hc))]

/-- Witness of C1: a Person source cast to Person is returned unchanged; the
same source cast to Car yields the VoidInstance singleton; a None source
yields the VoidInstance singleton. -/
theorem C1_safe_cast_witness :
    safe_cast Cls.person (some (mkPerson "Anna" 25 1)) = mkPerson "Anna" 25 1 ∧
    safe_cast Cls.car (some (mkPerson "Anna" 25 1)) = VoidEntity ∧
    safe_cast Cls.person none = VoidEntity := by
  have hs : ∀ x : Entity, some (mkPerson "Anna" 25 1) = some x →
      x.cls = Cls.void → x = VoidEntity := by
    intro x hx hv
    injection hx with hx
    rw [← hx] at hv
    exact absurd hv (by decide)
  have h1 := C1_safe_cast_spec Cls.person (some (mkPerson "Anna" 25 1)) hs
  have h2 := C1_safe_cast_spec Cls.car (some (mkPerson "Anna" 25 1)) hs
  have h3 := C1_safe_cast_spec Cls.person none (by intro x hx; cases hx)
  exact ⟨h1.1, h2.1, h3.1⟩

/-- C2 counterexample: VoidInstance is an entity, yet cloning it at a fresh
address 5 returns the very same singleton object at the same address, not
a new object with independent storage: the claim fails at x = VoidInstance. -/
theorem C2_clone_counterexample :
    clone VoidEntity 5 = VoidEntity ∧ (clone VoidEntity 5).ref = VoidEntity.ref :=
  ⟨rfl, rfl⟩

/-- C2 (amended): for every entity whose concrete variant is not Void,
clone at a fresh address returns a new object (different reference, hence
a different object) of the same concrete variant, with every field of the
dictionary deep-copied into it unchanged, and the clone equals the
original; Void.clone instead returns the VoidInstance singleton itself. -/
theorem C2_clone_amended (x : Entity) (fresh : Nat)
    (hcls : x.cls ≠ Cls.void) (hfresh : fresh ≠ x.ref) :
    (clone x fresh).ref ≠ x.ref ∧ clone x fresh ≠ x ∧
    (clone x fresh).cls = x.cls ∧ (clone x fresh).fields = x.fields ∧
    equals (clone x fresh) x = true := by
  have hc : clone x fresh =
      { cls := x.cls, fields := x.fields.map (fun kv => (kv.1, deepcopy kv.2)),
        ref := fresh } := by
    rw [clone, if_neg hcls]
  have hf : x.fields.map (fun kv => (kv.1, deepcopy kv.2)) = x.fields := by
    calc x.fields.map (fun kv => (kv.1, deepcopy kv.2)) = x.fields.map id := by
          apply List.map_congr_left
          intro kv _
          rfl
      _ = x.fields := List.map_id _
  have href : (clone x fresh).ref = fresh := by rw [hc]
  refine ⟨?_, ?_, ?_, ?_, ?_⟩
  · rw [href]; exact hfresh
  · intro hcontra
    apply hfresh
    rw [← href, hcontra]
  · rw [hc]
  · rw [hc]
    exact hf
  · rw [equals, hc]
    simp only
    rw [if_neg hcls, hf, subclassOf_refl, dictBeq_refl]
    rfl

/-- Witness of C2 (amended): cloning Person("Anna", 25) at a fresh address
yields a distinct object that equals the original. -/
theorem C2_clone_witness :
    (clone (mkPerson "Anna" 25 1) 2).ref ≠ (mkPerson "Anna" 25 1).ref ∧
    equals (clone (mkPerson "Anna" 25 1) 2) (mkPerson "Anna" 25 1) = true := by
  have h := C2_clone_amended (mkPerson "Anna" 25 1) 2 (by decide) (by decide)
  exact ⟨h.1, h.2.2.2.2⟩

/-- C4: the copy and deep-copy of the SentinelVoid singleton onto any
target fail with the UnsupportedOperation errors of Void (the TypeError
sites "Cannot copy Void object" and "Cannot deep copy Void object"), and
cloning the singleton at any fresh address returns the same singleton
reference (idempotent). -/
theorem C4_void_sentinel (t : Entity) (r : Nat) :
    copy_to VoidEntity t = Except.error Err.unsupportedVoidCopy ∧
    deep_copy_to VoidEntity t = Except.error Err.unsupportedVoidDeepCopy ∧
    clone VoidEntity r = VoidEntity :=
  ⟨rfl, rfl, rfl⟩

/-- C3 counterexample: the round-trip law fails at x = VoidInstance.  The
Void encoding carries data null, so the JSON branch of deserialize falls
through (null has no items); the pickle branch cannot decode this
particular text (its base64-alphabet content is 17 characters long, not a
multiple of 4), and the call fails with ValueError instead of producing an
entity to compare with deep_equals. -/
theorem C3_roundtrip_counterexample :
    deserialize Cls.void (serialize VoidEntity) 1 =
      Except.error Err.deserializationError := rfl

/-- C3 (amended): for every entity x whose concrete variant is not Void
(field names are distinct, as Python dictionaries guarantee),
deserializing the canonical serialization of x as the variant of x
succeeds and yields an object that deep-equals x. -/
theorem C3_roundtrip_amended (x : Entity) (fresh : Nat)
    (hcls : x.cls ≠ Cls.void) (hnod : (x.fields.map Prod.fst).Nodup) :
    ∃ y, deserialize x.cls (serialize x) fresh = Except.ok y ∧
      deep_equals y x = true := by
  have hser : serialize x =
      SText.json (JVal.obj [("class", JVal.str (clsName x.cls)),
        ("data", JVal.obj (sortEntries (canonEntries x.fields)))]) none := by
    rw [serialize, if_neg hcls]
  have hset : setFields (sortEntries (canonEntries x.fields)) =
      sortEntries (canonEntries x.fields) :=
    setFields_eq_self (sortCanon_keys_nodup hnod)
  refine ⟨{ cls := x.cls, fields := sortEntries (canonEntries x.fields), ref := fresh },
    ?_, ?_⟩
  · rw [hser]
    exact congrArg
      (fun f => (Except.ok { cls := x.cls, fields := f, ref := fresh } : Except Err Entity))
      hset
  · rw [deep_equals]
    simp only
    rw [if_neg hcls, subclassOf_refl]
    have hsy : serialize { cls := x.cls, fields := sortEntries (canonEntries x.fields), ref := fresh } = serialize x := by
      rw [serialize, serialize, if_neg hcls, if_neg hcls]
      simp only
      rw [sortCanon_idem]
    rw [hsy, stextBeq_refl]
    rfl

/-- Witness of C3 (amended): the round trip holds for Person("Anna", 25). -/
theorem C3_roundtrip_witness :
    ∃ y, deserialize Cls.person (serialize (mkPerson "Anna" 25 1)) 2 = Except.ok y ∧
      deep_equals y (mkPerson "Anna" 25 1) = true :=
  C3_roundtrip_amended (mkPerson "Anna" 25 1) 2 (by decide) (by decide)

/-- C5 counterexample: copy_to succeeds although the concrete variants of
source and target differ.  An Any() instance copied into a Person target
raises nothing (the target is an instance of the class of the source, so
the isinstance gate passes), refuting the claimed equivalence of failure
with variant inequality. -/
theorem C5_copy_to_counterexample :
    copy_to (mkAny 1) (mkPerson "Anna" 25 2) = Except.ok (mkPerson "Anna" 25 2) ∧
    (mkAny 1).cls ≠ (mkPerson "Anna" 25 2).cls :=
  ⟨rfl, by decide⟩

/-- C5 (amended): for a non-Void source, copy_to fails, with the
TypeMismatch error carrying the target class, exactly when the concrete
variant of the target is neither the variant of the source nor one of its
sub-variants; when the target is such an instance the call succeeds and
overwrites every externally visible field of the target (each attribute of
the source whose name does not start with an underscore) with the value
the source holds, leaving every other field of the target unchanged; the
class and identity of the target are preserved.  Values are assigned, not
rebuilt, so shared sub-objects remain shared (the assigned value is the
very value of the source field). -/
theorem C5_copy_to_amended (s t : Entity)
    (hs : s.cls ≠ Cls.void) (hnod : (s.fields.map Prod.fst).Nodup) :
    (subclassOf t.cls s.cls = false →
      copy_to s t = Except.error (Err.typeMismatch t.cls)) ∧
    (subclassOf t.cls s.cls = true →
      ∃ t', copy_to s t = Except.ok t' ∧ t'.cls = t.cls ∧ t'.ref = t.ref ∧
        (∀ k v, startsUnderscore k = false → lookupF s.fields k = some v →
          lookupF t'.fields k = some v) ∧
        (∀ k, startsUnderscore k = true ∨ lookupF s.fields k = none →
          lookupF t'.fields k = lookupF t.fields k)) := by
  constructor
  · intro hsub
    rw [copy_to, if_neg hs, if_neg (by rw [hsub]; exact Bool.false_ne_true)]
  · intro hsub
    have hsrcnod : ((sortEntries (visibleFields s.fields)).map Prod.fst).Nodup :=
      sortEntries_keys_nodup (visible_keys_nodup hnod)
    refine ⟨{ t with
        fields := applyEntries t.fields (sortEntries (visibleFields s.fields)) },
      ?_, rfl, rfl, ?_, ?_⟩
    · rw [copy_to, if_neg hs, if_pos hsub]
    · intro k v hu hl
      have hmem : (k, v) ∈ s.fields := lookupF_mem hl
      have hvis : (k, v) ∈ visibleFields s.fields := mem_visible hmem hu
      have hsorted : (k, v) ∈ sortEntries (visibleFields s.fields) :=
        (sortEntries_perm _).mem_iff.mpr hvis
      exact applyEntries_mem _ hsrcnod hsorted
    · intro k hk
      apply applyEntries_not_mem
      intro hmem
      have hmem2 : k ∈ (visibleFields s.fields).map Prod.fst :=
        (sortEntries_keys_perm _).mem_iff.mp hmem
      rcases hk with hk | hk
      · rw [visible_keys_not_underscore hmem2] at hk
        exact Bool.false_ne_true hk
      · rw [lookupF_eq_none] at hk
        apply hk
        have hsub2 : (visibleFields s.fields).map Prod.fst ⊆ s.fields.map Prod.fst :=
          List.Sublist.subset (List.Sublist.map Prod.fst (List.filter_sublist _))
        exact hsub2 hmem2

/-- Witness of C5 (amended): copying Person("Bob", 1) into a Car target
fails with TypeMismatch, and copying it into a fresh Person("Zed", 0)
target leaves the target with age 1, the value of the source. -/
theorem C5_copy_to_witness :
    copy_to (mkPerson "Bob" 1 1) (mkCar "Toyota" "Camry" 2020 2) =
      Except.error (Err.typeMismatch Cls.car) ∧
    ∃ t', copy_to (mkPerson "Bob" 1 1) (mkPerson "Zed" 0 2) = Except.ok t' ∧
      lookupF t'.fields "age" = some (JVal.num 1) := by
  have h1 := (C5_copy_to_amended (mkPerson "Bob" 1 1) (mkCar "Toyota" "Camry" 2020 2)
    (by decide) (by decide)).1 (by decide)
  have h2 := (C5_copy_to_amended (mkPerson "Bob" 1 1) (mkPerson "Zed" 0 2)
    (by decide) (by decide)).2 (by decide)
  rcases h2 with ⟨t', ht, _, _, hcopy, _⟩
  exact ⟨h1, t', ht, hcopy "age" (JVal.num 1) (by decide) rfl⟩

/-- C6 counterexample: equals can return true for two operands of
different concrete variants.  Deserializing the serialization of an Any()
instance as Person produces a Person whose attribute dictionary equals the
one of the Any() instance, and equals on the pair returns true although the
variants differ (the isinstance gate accepts any sub-variant of the class
of the left operand). -/
theorem C6_equals_counterexample :
    deserialize Cls.person (serialize (mkAny 1)) 2 =
      Except.ok { cls := Cls.person,
                  fields := [("_created_at", JVal.null), ("_metadata", JVal.obj [])],
                  ref := 2 } ∧
    equals (mkAny 1)
      { cls := Cls.person,
        fields := [("_created_at", JVal.null), ("_metadata", JVal.obj [])],
        ref := 2 } = true ∧
    (mkAny 1).cls ≠ Cls.person :=
  ⟨rfl, rfl, by decide⟩

/-- C6 (amended): equals never raises; it returns false whenever the right
operand is not an instance of the class of the left operand (in particular
for any two distinct sibling variants), and when the right operand is such
an instance it is exactly the dictionary comparison; two instances of the
sibling variants Person and Car with identical field contents are unequal. -/
theorem C6_equals_amended (x y : Entity) (hx : x.cls ≠ Cls.void) :
    (subclassOf y.cls x.cls = false → equals x y = false) ∧
    (subclassOf y.cls x.cls = true → equals x y = dictBeq x.fields y.fields) ∧
    equals { cls := Cls.person, fields := [("value", JVal.num 1)], ref := 1 }
      { cls := Cls.car, fields := [("value", JVal.num 1)], ref := 2 } = false := by
  refine ⟨?_, ?_, rfl⟩
  · intro hsub
    rw [equals, if_neg hx, hsub]
    rfl
  · intro hsub
    rw [equals, if_neg hx, hsub]
    rfl

/-- Witness of C6 (amended): Person("Anna", 25) never equals a Car, and
against another Person the comparison is the dictionary comparison. -/
theorem C6_equals_witness :
    equals (mkPerson "Anna" 25 1) (mkCar "Toyota" "Camry" 2020 2) = false ∧
    equals (mkPerson "Anna" 25 1) (mkPerson "Anna" 25 3) =
      dictBeq (mkPerson "Anna" 25 1).fields (mkPerson "Anna" 25 3).fields := by
  have h1 := (C6_equals_amended (mkPerson "Anna" 25 1) (mkCar "Toyota" "Camry" 2020 2)
    (by decide)).1 (by decide)
  have h2 := (C6_equals_amended (mkPerson "Anna" 25 1) (mkPerson "Anna" 25 3)
    (by decide)).2.1 (by decide)
  exact ⟨h1, h2⟩

/-- C7: no safe or try operation lets an error propagate: safe_copy_to
always returns a boolean flag (true with the mutated target exactly when
the strict copy_to succeeds, false with the target untouched otherwise);
safe_serialize and try_clone return the strict result (their strict
operations never fail in the model); safe_deserialize returns the strict
result when deserialize succeeds and the SentinelVoid singleton when it
fails. -/
theorem C7_safe_wrappers_total :
    (∀ x t : Entity,
      (∃ t', copy_to x t = Except.ok t' ∧ safe_copy_to x t = (true, t')) ∨
      (∃ e, copy_to x t = Except.error e ∧ safe_copy_to x t = (false, t))) ∧
    (∀ x : Entity, safe_serialize x = serialize x) ∧
    (∀ (x : Entity) (r : Nat), try_clone x r = clone x r) ∧
    (∀ (c : Cls) (st : SText) (r : Nat),
      (∃ e, deserialize c st r = Except.ok e ∧ safe_deserialize c st r = e) ∨
      (∃ err, deserialize c st r = Except.error err ∧
        safe_deserialize c st r = VoidEntity)) := by
  refine ⟨?_, fun _ => rfl, fun _ _ => rfl, ?_⟩
  · intro x t
    cases h : copy_to x t with
    | ok t' =>
      left
      refine ⟨t', rfl, ?_⟩
      rw [safe_copy_to, h]
    | error e =>
      right
      refine ⟨e, rfl, ?_⟩
      rw [safe_copy_to, h]
  · intro c st r
    cases h : deserialize c st r with
    | ok e =>
      left
      refine ⟨e, rfl, ?_⟩
      rw [safe_deserialize, h]
    | error err =>
      right
      refine ⟨err, rfl, ?_⟩
      rw [safe_deserialize, h]

/-- C8: deserialize fails with the DeserializationError (the ValueError of
the source) exactly on the texts no known representation decodes: on any
raw text, and on any well-formed JSON text without the canonical shape (a
dict with a "class" key and a dict under "data") whose base64/pickle
fallback decoding also fails.  A JSON text without the canonical shape
falls through to the pickle branch of the source, which can succeed:
base64.b64decode with validate=False discards quotes and punctuation, so
for example a JSON string literal wrapping a base64 pickle decodes, and
deserialize returns the unpickled object instead of raising.  A
well-formed canonical encoding is reconstructed into an instance of the
requested variant with its fields populated from the encoded data. -/
theorem C8_deserialize_spec :
    (∀ (c : Cls) (s : String) (r : Nat),
      deserialize c (SText.raw s) r = Except.error Err.deserializationError) ∧
    (∀ (c : Cls) (v : JVal) (pk : Option Entity) (r : Nat), canonShape v = false →
      deserialize c (SText.json v pk) r = pickleFallback pk) ∧
    (∀ (c : Cls) (v : JVal) (r : Nat), canonShape v = false →
      deserialize c (SText.json v none) r = Except.error Err.deserializationError) ∧
    (∀ (c : Cls) (u : String) (d : List (String × JVal)) (pk : Option Entity) (r : Nat),
      (d.map Prod.fst).Nodup →
      deserialize c
          (SText.json (JVal.obj [("class", JVal.str u), ("data", JVal.obj d)]) pk) r =
        Except.ok { cls := c, fields := d, ref := r }) := by
  refine ⟨fun _ _ _ => rfl, ?_, ?_, ?_⟩
  · intro c v pk r h
    exact deserialize_json_fallback c v pk r h
  · intro c v r h
    exact deserialize_json_fallback c v none r h
  · intro c u d pk r hnod
    exact congrArg
      (fun f => (Except.ok { cls := c, fields := f, ref := r } : Except Err Entity))
      (setFields_eq_self hnod)

/-- Witness of C8: a garbage raw text fails; a bare-number JSON text whose
fallback decoding fails raises the error; a well-formed JSON string
literal whose base64-alphabet content unpickles (the payload stands for
the unpickled object at the declared result type) falls through to the
pickle branch and succeeds; a canonical Person encoding is rebuilt with
its fields. -/
theorem C8_deserialize_witness :
    deserialize Cls.person (SText.raw "garbage text") 1 =
      Except.error Err.deserializationError ∧
    deserialize Cls.person (SText.json (JVal.num 3) none) 1 =
      Except.error Err.deserializationError ∧
    deserialize Cls.person (SText.json (JVal.str "gARLKi4=") (some (mkAny 4))) 1 =
      Except.ok (mkAny 4) ∧
    deserialize Cls.person
        (SText.json (JVal.obj [("class", JVal.str "Person"),
          ("data", JVal.obj [("value", JVal.num 7)])]) none) 1 =
      Except.ok { cls := Cls.person, fields := [("value", JVal.num 7)], ref := 1 } := by
  have h := C8_deserialize_spec
  exact ⟨h.1 Cls.person "garbage text" 1,
    h.2.2.1 Cls.person (JVal.num 3) 1 rfl,
    h.2.1 Cls.person (JVal.str "gARLKi4=") (some (mkAny 4)) 1 rfl,
    h.2.2.2 Cls.person "Person" [("value", JVal.num 7)] none 1 (by decide)⟩

/-- C9: serialize is deterministic and canonical: two entities of the same
concrete variant whose attribute dictionaries hold the same entries (the
same name-value pairs, in any insertion order) serialize to the identical
text; for a non-Void entity the encoded data lists the fields sorted by
name; a Void entity always serializes to the one fixed empty encoding. -/
theorem C9_serialize_deterministic :
    (∀ x y : Entity, x.cls = y.cls → List.Perm x.fields y.fields →
      (x.fields.map Prod.fst).Nodup → serialize x = serialize y) ∧
    (∀ x : Entity, x.cls ≠ Cls.void →
      serialize x = SText.json (JVal.obj [("class", JVal.str (clsName x.cls)),
        ("data", JVal.obj (sortEntries (canonEntries x.fields)))]) none ∧
      List.Sorted keyLe (sortEntries (canonEntries x.fields))) ∧
    (∀ x : Entity, x.cls = Cls.void →
      serialize x =
        SText.json (JVal.obj [("class", JVal.str "Void"), ("data", JVal.null)]) none) := by
  refine ⟨?_, ?_, ?_⟩
  · intro x y hcls hperm hnod
    by_cases hv : x.cls = Cls.void
    · have hvy : y.cls = Cls.void := by rw [← hcls]; exact hv
      rw [serialize, serialize, if_pos hv, if_pos hvy]
    · have hvy : y.cls ≠ Cls.void := by rw [← hcls]; exact hv
      rw [serialize, serialize, if_neg hv, if_neg hvy, hcls,
        sortCanon_perm_eq hperm hnod]
  · intro x hv
    exact ⟨by rw [serialize, if_neg hv], sortEntries_sorted _⟩
  · intro x hv
    rw [serialize, if_pos hv]

/-- Witness of C9: two Person objects with the same fields inserted in
opposite orders serialize identically, and VoidInstance serializes to the
fixed empty encoding. -/
theorem C9_serialize_witness :
    serialize { cls := Cls.person, fields := [("a", JVal.num 1), ("b", JVal.num 2)], ref := 1 } =
      serialize { cls := Cls.person, fields := [("b", JVal.num 2), ("a", JVal.num 1)], ref := 2 } ∧
    serialize VoidEntity =
      SText.json (JVal.obj [("class", JVal.str "Void"), ("data", JVal.null)]) none := by
  have h := C9_serialize_deterministic
  refine ⟨h.1 _ _ rfl ?_ (by decide), h.2.2 VoidEntity rfl⟩
  exact List.Perm.swap ("b", JVal.num 2) ("a", JVal.num 1) []

/-- C10: deserialize never compares the variant tag embedded in the text
with the requested variant: deserializing the serialization of a non-Void
entity of variant U as any variant T succeeds and yields an instance of T
whose fields are the field values of the U entity (each value in its
canonically sorted form). -/
theorem C10_deserialize_ignores_tag (x : Entity) (tcls : Cls) (r : Nat)
    (hx : x.cls ≠ Cls.void) (_hne : tcls ≠ x.cls)
    (hnod : (x.fields.map Prod.fst).Nodup) :
    deserialize tcls (serialize x) r =
      Except.ok { cls := tcls, fields := sortEntries (canonEntries x.fields), ref := r } ∧
    (∀ k, lookupF (sortEntries (canonEntries x.fields)) k =
      (lookupF x.fields k).map canon) := by
  constructor
  · rw [serialize, if_neg hx]
    exact congrArg
      (fun f => (Except.ok { cls := tcls, fields := f, ref := r } : Except Err Entity))
      (setFields_eq_self (sortCanon_keys_nodup hnod))
  · exact lookupF_sortCanon hnod

/-- Witness of C10: the serialization of Person("Anna", 25) deserialized
as Car succeeds and yields a Car carrying the Person fields. -/
theorem C10_deserialize_ignores_tag_witness :
    deserialize Cls.car (serialize (mkPerson "Anna" 25 1)) 3 =
      Except.ok { cls := Cls.car,
                  fields := [("_created_at", JVal.null), ("_metadata", JVal.obj []),
                             ("age", JVal.num 25), ("name", JVal.str "Anna")],
                  ref := 3 } := by
  have h := C10_deserialize_ignores_tag (mkPerson "Anna" 25 1) Cls.car 3
    (by decide) (by decide) (by decide)
  exact h.1.trans (by rfl)
